import Mathlib

/-!
Verification development for the `call_permissions_module` plugin
(`src/call_permissions/call_permissions_module.py`).

The module hooks into a chat server's event pipeline: on every new room it
waits (with bounded exponential-backoff retries) for the room's power-level
state to appear, computes a patch that sets a fixed list of call-signaling
event types to a configured permission level (optionally lowering
`events_default`), submits the patched map with the authority of an admin
user (falling back to the room creator), and verifies afterwards.

The embedding below translates the Python source:

* a power-level content dict becomes the structure `PowerLevels`;
  its `events` and `users` sub-dicts become insertion-ordered association
  lists (`List (String × Int)`), matching Python dict semantics where
  assignment to a present key updates it in place and assignment to an
  absent key appends;
* `_setup_call_permissions` (lines 146-254) becomes
  `setup_call_permissions` (the pure patch computation), `setup_run`
  (the submission / verification-scheduling part, with the outcome of the
  two host write calls supplied as boolean oracles) and `reconcile_once`
  (the room's power-level map after one reconciliation);
* `_setup_call_permissions_with_retry` (lines 92-129) becomes `retry_go` /
  `setup_call_permissions_with_retry`, with the host state at each poll
  supplied as a function `Nat → Option PowerLevels`;
* `_should_exclude_room` (lines 131-144) and `_check_event_allowed`
  (lines 60-90) become `should_exclude_room` and `check_event_allowed`,
  with internal faults of the try-block supplied as boolean oracles;
* `_send_state_event` (lines 256-311) becomes `send_state_event`;
* `_find_admin_user` (lines 339-349) plus the caller's falsy fallback
  (lines 228-230) become `find_admin_user` and `choose_sender`.

A second, heap-level embedding (`heap_setup`) models the Python object
graph explicitly (dict objects with identity, `copy.deepcopy`, in-place
`d[k] = v` mutation) in order to state the frame property that patch
computation never mutates the host's cached state.
-/

/-- One entry of a Python dict with string keys and integer values is a
pair; a dict is the insertion-ordered list of its entries. -/
abbrev IntDict := List (String × Int)

/-- Python `d.get(key)` on an `IntDict`: value of the first (in a real
Python dict: the only) entry with the given key. -/
def lookupKey : IntDict → String → Option Int
  | [], _ => none
  | (k, v) :: rest, key => if k = key then some v else lookupKey rest key

/-- Update in place every entry carrying the given key (a real Python
dict has exactly one), leaving all other entries untouched. -/
def setAllKey : IntDict → String → Int → IntDict
  | [], _, _ => []
  | (k0, v0) :: rest, key, v =>
      if k0 = key then (key, v) :: setAllKey rest key v
      else (k0, v0) :: setAllKey rest key v

/-- Python `d[key] = v` on an `IntDict`: if the key is present its entry
is updated in place, otherwise the new entry is appended at the end. -/
def dictInsert (l : IntDict) (key : String) (v : Int) : IntDict :=
  if (lookupKey l key).isSome then setAllKey l key v
  else l ++ [(key, v)]

/-- The power-level content dict (`m.room.power_levels` state event
content).  Optional fields model presence or absence of the dict key; the
`users` and `events` sub-dicts model an absent key as the empty list,
which the code treats identically (`power_levels.get("users", {})`, and
`events` is materialised to `{}` when absent before any use). -/
structure PowerLevels where
  users : IntDict
  users_default : Option Int
  state_default : Option Int
  ban : Option Int
  kick : Option Int
  redact : Option Int
  events : IntDict
  events_default : Option Int
deriving DecidableEq, Repr

/-- One recorded entry of the `changes` list built by
`_setup_call_permissions`: either a per-event-type change
(`f"{event_type}: {old_level} → {level}"`, with `none` standing for the
Python placeholder string `"not set"`) or the `events_default` change
(`f"events_default: {old_default} → {level}"`). -/
inductive PLChange where
  | event_level : String → Option Int → Int → PLChange
  | default_level : Int → Int → PLChange
deriving DecidableEq, Repr

/-- The hardcoded `call_events` list of `_setup_call_permissions`
(lines 177-192). -/
def call_events : List String :=
  [ "m.call.invite",
    "m.call.answer",
    "m.call.hangup",
    "m.call.candidates",
    "m.call.select_answer",
    "m.call.reject",
    "m.call.negotiate",
    "org.matrix.msc3401.call",
    "org.matrix.msc3401.call.member",
    "m.call.member",
    "im.vector.modular.widgets" ]

/-- One iteration of the `for event_type in call_events` loop
(lines 203-207): read the old level (`"not set"`, i.e. `none`, when
absent), unconditionally write the configured level, and append a change
record when the old level differs from the configured level. -/
def update_call_event (level : Int) (acc : IntDict × List PLChange)
    (event_type : String) : IntDict × List PLChange :=
  let old := lookupKey acc.1 event_type
  let upd := dictInsert acc.1 event_type level
  if old = some level then (upd, acc.2)
  else (upd, acc.2 ++ [PLChange.event_level event_type old level])

/-- Result of the pure patch computation of `_setup_call_permissions`:
the recorded `changes` list and the fully built replacement map
`new_power_levels`. -/
structure SetupResult where
  changes : List PLChange
  newMap : PowerLevels
deriving DecidableEq, Repr

/-- The whole `for event_type in call_events` loop (lines 195-207),
started from the room's current `events` dict and an empty `changes`
list: returns the `updated_events` dict and the recorded changes.
(Irreducible so that elaboration never expands the eleven loop
iterations inside an abstract goal; concrete computations re-expose the
body by unfolding first, and the kernel is unaffected.) -/
@[irreducible] def run_call_events (level : Int) (events : IntDict) :
    IntDict × List PLChange :=
  call_events.foldl (update_call_event level) (events, [])

/-- The pure patch computation of `_setup_call_permissions`
(lines 161-221): deep-copy the current map (value semantics here), run the
call-events update loop over the `events` dict, then, when
`also_set_events_default` is set and the current default
(`new_power_levels.get("events_default", 0)`, still the incoming value at
that point) strictly exceeds the configured level, lower `events_default`
to the configured level and record that change. -/
def setup_call_permissions (level : Int) (also_default : Bool)
    (m : PowerLevels) : SetupResult :=
  if also_default then
    if m.events_default.getD 0 > level then
      ⟨(run_call_events level m.events).2
         ++ [PLChange.default_level (m.events_default.getD 0) level],
       { m with events := (run_call_events level m.events).1,
                events_default := some level }⟩
    else ⟨(run_call_events level m.events).2,
          { m with events := (run_call_events level m.events).1 }⟩
  else ⟨(run_call_events level m.events).2,
        { m with events := (run_call_events level m.events).1 }⟩

/-- The room's power-level map after one reconciliation of a ready room:
when no changes were recorded the code returns before submitting
(`if not changes: return`, lines 219-221) and the room keeps its map;
otherwise the replacement map is submitted. -/
def reconcile_once (level : Int) (also_default : Bool)
    (m : PowerLevels) : PowerLevels :=
  if (setup_call_permissions level also_default m).changes.isEmpty then m
  else (setup_call_permissions level also_default m).newMap

/-- The value that `new_power_levels.get("events_default", 0)` reads. -/
def events_default_of (m : PowerLevels) : Int := m.events_default.getD 0

/-- `_find_admin_user` (lines 339-349): scan the `users` dict in iteration
order and return the first user whose power is at least 50, else `None`. -/
def find_admin_user : IntDict → Option String
  | [] => none
  | (u, p) :: rest => if p ≥ 50 then some u else find_admin_user rest

/-- The caller's selection of the acting user (lines 228-230):
`admin_user = await self._find_admin_user(...)` followed by
`if not admin_user: admin_user = sender`.  Python truthiness makes both
`None` and the empty string fall back to the sender. -/
def choose_sender (users : IntDict) (sender : String) : String :=
  match find_admin_user users with
  | some u => if u = "" then sender else u
  | none => sender

/-- The creation event content fields read by `_should_exclude_room`:
`content.get("type")` and `content.get("is_direct", False)`. -/
structure CreateContent where
  room_type : Option String
  is_direct : Bool
deriving DecidableEq, Repr

/-- `_should_exclude_room` (lines 131-144): exclude exactly when the
declared room type is in the configured excluded list (`None` is never in
a list of strings); the `is_direct` branch returns `False` either way, so
direct-message rooms are not excluded. -/
def should_exclude_room (excluded : List String) (c : CreateContent) : Bool :=
  match c.room_type with
  | some t => excluded.contains t
  | none => false

/-- The value returned by `_check_event_allowed` together with whether the
reconciliation work was handed to the scheduler (`reactor.callLater`,
lines 79-84). -/
structure CheckOutcome where
  allowed : Bool
  replacement : Option PowerLevels
  scheduled : Bool
deriving DecidableEq, Repr

/-- `_check_event_allowed` (lines 60-90).  The try-block schedules the
reconciliation for `m.room.create` events of non-excluded rooms when the
module is enabled; any exception inside the try-block is caught and
`(True, None)` returned.  `excl_fault` makes the awaited exclusion check
raise; `sched_fault` makes the `reactor.callLater` call raise (in either
case no work ends up scheduled and the except-branch returns
`(True, None)`). -/
def check_event_allowed (enable : Bool) (excluded : List String)
    (event_type : String) (content : CreateContent)
    (excl_fault sched_fault : Bool) : CheckOutcome :=
  if event_type = "m.room.create" then
    if enable then
      if excl_fault then ⟨true, none, false⟩
      else if should_exclude_room excluded content then ⟨true, none, false⟩
      else if sched_fault then ⟨true, none, false⟩
      else ⟨true, none, true⟩
    else ⟨true, none, false⟩
  else ⟨true, none, false⟩

/-- The observable behaviour of one `_send_state_event` call
(lines 256-311): whether it returned `True`, and how many times the
primary path (`create_and_send_nonmember_event`) and the fallback path
(`create_and_send_event_into_room`) were invoked. -/
structure SendTrace where
  success : Bool
  primary_attempts : Nat
  fallback_attempts : Nat
deriving DecidableEq, Repr

/-- `_send_state_event` with the outcomes of the two host write calls
supplied as oracles: the primary path is always tried once; the fallback
is tried exactly once and only when the primary raised; if both raise the
call returns `False`. -/
def send_state_event (primary_ok fallback_ok : Bool) : SendTrace :=
  if primary_ok then ⟨true, 1, 0⟩
  else if fallback_ok then ⟨true, 1, 1⟩
  else ⟨false, 1, 1⟩

/-- The observable behaviour of one `_setup_call_permissions` run on a
ready (or missing) power-level state: the send call it made (if any),
whether verification was scheduled, the room's power-level state
afterwards, and the successfully submitted map (if any).  A failed or
skipped submission leaves the room state untouched (the host write is
atomic). -/
structure SetupTrace where
  send : Option SendTrace
  verification_scheduled : Bool
  final_state : Option PowerLevels
  submitted : Option PowerLevels
deriving DecidableEq, Repr

/-- `_setup_call_permissions` (lines 146-254) end to end: with no
power-level state it logs and returns (lines 157-159); with no recorded
changes it returns before sending (lines 219-221); otherwise it sends the
replacement map once via `_send_state_event` and schedules verification
only on success (lines 243-251). -/
def setup_run (level : Int) (also_default : Bool) :
    Option PowerLevels → Bool → Bool → SetupTrace
  | none, _, _ => ⟨none, false, none, none⟩
  | some m, primary_ok, fallback_ok =>
    if (setup_call_permissions level also_default m).changes.isEmpty then
      ⟨none, false, some m, none⟩
    else if (send_state_event primary_ok fallback_ok).success then
      ⟨some (send_state_event primary_ok fallback_ok), true,
       some (setup_call_permissions level also_default m).newMap,
       some (setup_call_permissions level also_default m).newMap⟩
    else ⟨some (send_state_event primary_ok fallback_ok), false, some m, none⟩

/-- The retry cap `max_attempts` of `_setup_call_permissions_with_retry`
(line 101). -/
def max_attempts : Nat := 6

/-- The observable behaviour of the readiness-wait loop: how many polls
of the room state were made, the backoff delays (in seconds) scheduled
between consecutive polls, and the power-level state found by the
successful poll (if any). -/
structure RetryTrace where
  polls : Nat
  delays : List Nat
  found : Option PowerLevels
deriving DecidableEq, Repr

/-- One invocation chain of `_setup_call_permissions_with_retry`
(lines 92-129), starting at the given attempt number, with the host state
visible at each attempt supplied by `state_at`.  Each invocation polls the
room state once; when the power-level item is present it proceeds,
otherwise it schedules itself again after `2 ** attempt` seconds while
`attempt < max_attempts - 1`, and gives up permanently once attempts are
exhausted.  The recursion is bounded by the explicit fuel
`max_attempts - attempt`, which the guard keeps positive at every
recursive call. -/
def retry_go (state_at : Nat → Option PowerLevels) (attempt : Nat) :
    Nat → RetryTrace
  | 0 => ⟨0, [], none⟩
  | fuel + 1 =>
    match state_at attempt with
    | some m => ⟨1, [], some m⟩
    | none =>
      if attempt < max_attempts - 1 then
        let rest := retry_go state_at (attempt + 1) fuel
        ⟨rest.polls + 1, 2 ^ attempt :: rest.delays, rest.found⟩
      else ⟨1, [], none⟩

/-- `_setup_call_permissions_with_retry` started at the given attempt. -/
def setup_call_permissions_with_retry (state_at : Nat → Option PowerLevels)
    (attempt : Nat) : RetryTrace :=
  retry_go state_at attempt (max_attempts - attempt)

/-- The whole per-room pipeline, from the create-event callback to the
eventual privileged write: the map successfully written for the room, if
any.  Nothing past the callback runs unless the callback scheduled the
reconciliation; nothing past the readiness wait runs unless a poll found
the power-level state. -/
def pipeline_write (enable : Bool) (excluded : List String)
    (level : Int) (also_default : Bool) (content : CreateContent)
    (excl_fault sched_fault : Bool)
    (state_at : Nat → Option PowerLevels)
    (primary_ok fallback_ok : Bool) : Option PowerLevels :=
  if (check_event_allowed enable excluded "m.room.create" content
      excl_fault sched_fault).scheduled then
    (setup_run level also_default
      (setup_call_permissions_with_retry state_at 0).found
      primary_ok fallback_ok).submitted
  else none

/-- The C1 test scenario of the spec: `events_default = 0`, an empty
`events` mapping, no users. -/
def pl_c1 : PowerLevels := ⟨[], none, none, none, none, none, [], some 0⟩

/-- A map whose `events_default` is 50. -/
def pl_c4 : PowerLevels := ⟨[], none, none, none, none, none, [], some 50⟩

/-- A map in which `m.call.invite` has an explicit required level 0,
strictly below a target of 50. -/
def pl_c10 : PowerLevels :=
  ⟨[], none, none, none, none, none, [("m.call.invite", 0)], none⟩

/-! ### Heap-level embedding of the patch computation

`_setup_call_permissions` promises never to mutate the host's cached
state: it deep-copies the content dict (line 163), shallow-copies the
`events` sub-dict (line 170) and builds a fresh `updated_events` dict
(lines 196-210), so every in-place dict write hits an object allocated
after the function started.  To state that as a theorem we model the
Python object graph explicitly: a heap of dict objects addressed by
allocation order, with values that are ints, strings, booleans or
references to other dicts. -/

/-- A Python value as it occurs inside a power-level content dict:
a scalar or a reference to another dict object on the heap. -/
inductive PyVal where
  | int : Int → PyVal
  | str : String → PyVal
  | bool : Bool → PyVal
  | ref : Nat → PyVal
deriving DecidableEq, Repr

/-- A dict object: its insertion-ordered entries. -/
abbrev PyDict := List (String × PyVal)

/-- Python `d.get(key)` on a `PyDict`. -/
def dlookup : PyDict → String → Option PyVal
  | [], _ => none
  | (k, v) :: rest, key => if k = key then some v else dlookup rest key

/-- Update in place every `PyDict` entry carrying the given key. -/
def setAllKeyV : PyDict → String → PyVal → PyDict
  | [], _, _ => []
  | (k0, v0) :: rest, key, v =>
      if k0 = key then (key, v) :: setAllKeyV rest key v
      else (k0, v0) :: setAllKeyV rest key v

/-- Python `d[key] = v` on a `PyDict` (same semantics as `dictInsert`). -/
def dictSet (d : PyDict) (key : String) (v : PyVal) : PyDict :=
  if (dlookup d key).isSome then setAllKeyV d key v
  else d ++ [(key, v)]

/-- The heap: dict objects in allocation order; the address of an object
is its index. -/
structure Heap where
  objs : List PyDict
deriving DecidableEq, Repr

/-- Dereference an address (a dangling address reads as the empty dict;
the embedded code only dereferences live addresses). -/
def Heap.get (h : Heap) (a : Nat) : PyDict := h.objs.getD a []

/-- Allocate a fresh dict object; returns the new heap and the fresh
address. -/
def Heap.alloc (h : Heap) (d : PyDict) : Heap × Nat :=
  (⟨h.objs ++ [d]⟩, h.objs.length)

/-- Overwrite the object at an address (the in-place effect of a Python
dict mutation on the object the name refers to). -/
def Heap.set (h : Heap) (a : Nat) (d : PyDict) : Heap :=
  ⟨h.objs.set a d⟩

/-- `copy.deepcopy` of a value, with explicit recursion fuel (any fuel at
least the reference depth of the value gives the true deep copy; the
frame theorems below hold for every positive fuel).  A reference is
copied by deep-copying the referenced dict's entries in order, threading
the heap, and allocating the copied dict as a fresh object; scalars are
returned as they are. -/
def deepcopyVal : Nat → Heap → PyVal → Heap × PyVal
  | 0, h, v => (h, v)
  | fuel + 1, h, PyVal.ref a =>
      let r := (Heap.get h a).foldl
        (fun acc p =>
          let q := deepcopyVal fuel acc.1 p.2
          (q.1, acc.2 ++ [(p.1, q.2)]))
        (h, ([] : PyDict))
      let al := Heap.alloc r.1 r.2
      (al.1, PyVal.ref al.2)
  | _ + 1, h, v => (h, v)

/-- The `for k, v in events.items(): updated_events[k] = v` loop
(lines 198-200), writing into the dict at address `u`. -/
def heap_copy_entries (u : Nat) (entries : PyDict) (h : Heap) : Heap :=
  entries.foldl (fun h p => h.set u (dictSet (h.get u) p.1 p.2)) h

/-- The `for event_type in call_events: updated_events[event_type] =
level` loop (lines 203-207), writing into the dict at address `u` (the
reads feeding the `changes` list touch no heap object). -/
def heap_update_call_events (u : Nat) (level : Int) (h : Heap) : Heap :=
  call_events.foldl (fun h et => h.set u (dictSet (h.get u) et (PyVal.int level))) h

/-- Lines 212-217 of `_setup_call_permissions` as a heap effect: when
configured, read `events_default` (default 0) from the dict at `a1` and
lower it in place when it strictly exceeds the level (reading a non-int
`events_default` makes the Python comparison raise, after which the
caught exception ends the run with no further writes). -/
def heap_write_default (h : Heap) (a1 : Nat) (level : Int)
    (also_default : Bool) : Heap :=
  if also_default then
    match dlookup (h.get a1) "events_default" with
    | some (PyVal.int d) =>
        if d > level then
          h.set a1 (dictSet (h.get a1) "events_default" (PyVal.int level))
        else h
    | none =>
        if (0 : Int) > level then
          h.set a1 (dictSet (h.get a1) "events_default" (PyVal.int level))
        else h
    | some _ => h
  else h

/-- Line 210 of `_setup_call_permissions` as a heap effect: re-point
`new_power_levels["events"]` (dict at `a1`) at the dict at `u`. -/
def heap_write_events_ref (h : Heap) (a1 u : Nat) : Heap :=
  h.set a1 (dictSet (h.get a1) "events" (PyVal.ref u))

/-- Lines 194-217 of `_setup_call_permissions`, after the copies: `a1` is
the fresh copy of the content dict, `e` the fresh copy of its `events`
dict.  Allocates `updated_events = {}`, copies the entries of the dict at
`e` into it, runs the call-events loop on it, re-points
`new_power_levels["events"]` at it, and finally lowers `events_default`
when configured. -/
def heap_setup_rest (h : Heap) (a1 e : Nat) (level : Int)
    (also_default : Bool) : Heap :=
  heap_write_default
    (heap_write_events_ref
      (heap_update_call_events (h.alloc []).2 level
        (heap_copy_entries (h.alloc []).2 ((h.alloc []).1.get e) (h.alloc []).1))
      a1 (h.alloc []).2)
    a1 level also_default

/-- Lines 166-217 of `_setup_call_permissions` as heap effects, after the
deep copy: `h1` is the heap after copying, `a1` the address of the fresh
copy.  The `events` materialisation allocates a fresh empty dict when the
key is absent (line 167) and a shallow copy of the referenced dict when
present (line 170); a non-dict `events` value makes `dict(...)` raise a
`TypeError`, caught by the enclosing handler, ending the run with no
further writes.  Then `heap_setup_rest` performs the update loops and the
default write. -/
def heap_setup_core (h1 : Heap) (a1 : Nat) (level : Int)
    (also_default : Bool) : Heap :=
  match dlookup (h1.get a1) "events" with
  | none =>
      heap_setup_rest
        ((h1.alloc []).1.set a1
          (dictSet ((h1.alloc []).1.get a1) "events" (PyVal.ref (h1.alloc []).2)))
        a1 (h1.alloc []).2 level also_default
  | some (PyVal.ref ev) =>
      heap_setup_rest
        ((h1.alloc (h1.get ev)).1.set a1
          (dictSet ((h1.alloc (h1.get ev)).1.get a1) "events"
            (PyVal.ref (h1.alloc (h1.get ev)).2)))
        a1 (h1.alloc (h1.get ev)).2 level also_default
  | some _ => h1

/-- The heap effects of the patch computation of
`_setup_call_permissions` (lines 161-217) on the content dict at address
`a0`: `new_power_levels = copy.deepcopy(dict(content))` — the transient
shallow top-level copy made by `dict(...)` allocates and is then
discarded; its omission writes nothing — followed by `heap_setup_core`
on the fresh copy. -/
def heap_setup (h : Heap) (a0 : Nat) (level : Int) (also_default : Bool)
    (fuel : Nat) : Heap :=
  match deepcopyVal fuel h (PyVal.ref a0) with
  | (h1, PyVal.ref a1) => heap_setup_core h1 a1 level also_default
  | (h1, _) => h1

/-- A concrete three-object heap: the content dict at address 0 with
`users` at address 1 and `events` at address 2. -/
def heap_c9 : Heap :=
  ⟨[ [("users", PyVal.ref 1), ("events", PyVal.ref 2),
      ("events_default", PyVal.int 50)],
     [("@alice:example.org", PyVal.int 100)],
     [("m.call.invite", PyVal.int 0)] ]⟩

/-! ### Dictionary lemmas -/

theorem lookupKey_nil (key : String) : lookupKey [] key = none := rfl

theorem lookupKey_cons (k : String) (v : Int) (rest : IntDict) (key : String) :
    lookupKey ((k, v) :: rest) key
      = if k = key then some v else lookupKey rest key := rfl

theorem lookupKey_setAllKey_self (k : String) (v : Int) :
    ∀ l : IntDict, (lookupKey l k).isSome →
      lookupKey (setAllKey l k v) k = some v := by
  intro l
  induction l with
  | nil => intro h; simp [lookupKey] at h
  | cons a rest ih =>
    obtain ⟨ak, av⟩ := a
    intro h
    by_cases hk : ak = k
    · subst hk
      simp [setAllKey, lookupKey]
    · simp only [lookupKey_cons, hk, if_false] at h
      simp only [setAllKey, hk, if_false, lookupKey_cons]
      exact ih h

theorem lookupKey_appendOne_self (k : String) (v : Int) :
    ∀ l : IntDict, lookupKey l k = none → lookupKey (l ++ [(k, v)]) k = some v := by
  intro l
  induction l with
  | nil => intro _; simp [lookupKey]
  | cons a rest ih =>
    obtain ⟨ak, av⟩ := a
    intro h
    by_cases hk : ak = k
    · simp [lookupKey_cons, hk] at h
    · simp only [lookupKey_cons, hk, if_false] at h
      simp only [List.cons_append, lookupKey_cons, hk, if_false]
      exact ih h

theorem lookupKey_dictInsert_self (l : IntDict) (k : String) (v : Int) :
    lookupKey (dictInsert l k v) k = some v := by
  unfold dictInsert
  by_cases h : (lookupKey l k).isSome
  · simpa [h] using lookupKey_setAllKey_self k v l h
  · have hn : lookupKey l k = none := by
      cases hh : lookupKey l k
      · rfl
      · simp [hh] at h
    simpa [h] using lookupKey_appendOne_self k v l hn

theorem lookupKey_setAllKey_ne (k k' : String) (v : Int) (hne : k' ≠ k) :
    ∀ l : IntDict, lookupKey (setAllKey l k v) k' = lookupKey l k' := by
  intro l
  induction l with
  | nil => rfl
  | cons a rest ih =>
    obtain ⟨ak, av⟩ := a
    by_cases hk : ak = k
    · subst hk
      have hne2 : ¬ (ak = k') := fun hh => hne hh.symm
      simp [setAllKey, lookupKey_cons, hne2, ih]
    · simp only [setAllKey, hk, if_false, lookupKey_cons, ih]

theorem lookupKey_appendOne_ne (k k' : String) (v : Int) (hne : k' ≠ k) :
    ∀ l : IntDict, lookupKey (l ++ [(k, v)]) k' = lookupKey l k' := by
  intro l
  induction l with
  | nil =>
    have hne2 : ¬ (k = k') := fun hh => hne hh.symm
    simp [lookupKey, hne2]
  | cons a rest ih =>
    obtain ⟨ak, av⟩ := a
    by_cases hk' : ak = k'
    · simp [lookupKey, hk']
    · simp [lookupKey, hk', ih]

theorem lookupKey_dictInsert_ne (l : IntDict) (k : String) (v : Int)
    (k' : String) (hne : k' ≠ k) :
    lookupKey (dictInsert l k v) k' = lookupKey l k' := by
  unfold dictInsert
  by_cases h : (lookupKey l k).isSome
  · simpa [h] using lookupKey_setAllKey_ne k k' v hne l
  · simpa [h] using lookupKey_appendOne_ne k k' v hne l

/-! ### Lemmas about the call-events update loop -/

theorem update_call_event_fst (level : Int) (acc : IntDict × List PLChange)
    (et : String) :
    (update_call_event level acc et).1 = dictInsert acc.1 et level := by
  by_cases h : lookupKey acc.1 et = some level <;> simp [update_call_event, h]

theorem update_call_event_of_hit (level : Int) (ev : IntDict)
    (chs : List PLChange) (et : String) (h : lookupKey ev et = some level) :
    update_call_event level (ev, chs) et = (dictInsert ev et level, chs) := by
  simp [update_call_event, h]

theorem update_call_event_of_miss (level : Int) (ev : IntDict)
    (chs : List PLChange) (et : String) (h : ¬ lookupKey ev et = some level) :
    update_call_event level (ev, chs) et
      = (dictInsert ev et level,
         chs ++ [PLChange.event_level et (lookupKey ev et) level]) := by
  simp [update_call_event, h]

theorem fold_lookup_preserved (level : Int) (et : String) :
    ∀ (L : List String) (acc : IntDict × List PLChange),
      lookupKey acc.1 et = some level →
      lookupKey (L.foldl (update_call_event level) acc).1 et = some level := by
  intro L
  induction L with
  | nil => intro acc h; simpa using h
  | cons k rest ih =>
    intro acc h
    rw [List.foldl_cons]
    apply ih
    rw [update_call_event_fst]
    by_cases hk : et = k
    · subst hk; exact lookupKey_dictInsert_self _ _ _
    · rw [lookupKey_dictInsert_ne _ _ _ _ hk]; exact h

theorem fold_lookup_target (level : Int) (et : String) :
    ∀ (L : List String), et ∈ L →
      ∀ acc : IntDict × List PLChange,
        lookupKey (L.foldl (update_call_event level) acc).1 et = some level := by
  intro L
  induction L with
  | nil => intro h; cases h
  | cons k rest ih =>
    intro hmem acc
    rw [List.foldl_cons]
    rcases List.mem_cons.mp hmem with heq | hmem2
    · by_cases hr : et ∈ rest
      · exact ih hr _
      · subst heq
        apply fold_lookup_preserved
        rw [update_call_event_fst]
        exact lookupKey_dictInsert_self _ _ _
    · exact ih hmem2 _

theorem fold_lookup_not_mem (level : Int) (et : String) :
    ∀ (L : List String), et ∉ L →
      ∀ acc : IntDict × List PLChange,
        lookupKey (L.foldl (update_call_event level) acc).1 et
          = lookupKey acc.1 et := by
  intro L
  induction L with
  | nil => intro _ acc; rfl
  | cons k rest ih =>
    intro hmem acc
    have hk : et ≠ k := fun hh => hmem (hh ▸ List.mem_cons_self k rest)
    have hr : et ∉ rest := fun hh => hmem (List.mem_cons_of_mem k hh)
    rw [List.foldl_cons, ih hr, update_call_event_fst,
      lookupKey_dictInsert_ne _ _ _ _ hk]

theorem fold_changes_stable (level : Int) :
    ∀ (L : List String) (ev : IntDict) (chs : List PLChange),
      (∀ et ∈ L, lookupKey ev et = some level) →
      (L.foldl (update_call_event level) (ev, chs)).2 = chs := by
  intro L
  induction L with
  | nil => intro ev chs _; rfl
  | cons k rest ih =>
    intro ev chs hall
    have hk : lookupKey ev k = some level := hall k (List.mem_cons_self k rest)
    rw [List.foldl_cons, update_call_event_of_hit level ev chs k hk]
    apply ih
    intro et hmem
    by_cases he : et = k
    · subst he; exact lookupKey_dictInsert_self _ _ _
    · rw [lookupKey_dictInsert_ne _ _ _ _ he]
      exact hall et (List.mem_cons_of_mem k hmem)

theorem fold_changes_extend (level : Int) :
    ∀ (L : List String) (ev : IntDict) (chs : List PLChange),
      ∃ t, (L.foldl (update_call_event level) (ev, chs)).2 = chs ++ t := by
  intro L
  induction L with
  | nil => intro ev chs; exact ⟨[], by simp⟩
  | cons k rest ih =>
    intro ev chs
    rw [List.foldl_cons]
    by_cases h : lookupKey ev k = some level
    · rw [update_call_event_of_hit level ev chs k h]
      exact ih _ _
    · rw [update_call_event_of_miss level ev chs k h]
      obtain ⟨t, ht⟩ := ih (dictInsert ev k level)
        (chs ++ [PLChange.event_level k (lookupKey ev k) level])
      exact ⟨PLChange.event_level k (lookupKey ev k) level :: t, by
        rw [ht, List.append_assoc]; rfl⟩

/-! ### Lemmas about `setup_call_permissions` -/

theorem run_call_events_changes_stable (level : Int) (ev : IntDict)
    (h : ∀ et ∈ call_events, lookupKey ev et = some level) :
    (run_call_events level ev).2 = [] := by
  unfold run_call_events
  exact fold_changes_stable level call_events ev [] h

theorem run_call_events_lookup_target (level : Int) (et : String)
    (h : et ∈ call_events) (ev : IntDict) :
    lookupKey (run_call_events level ev).1 et = some level := by
  unfold run_call_events
  exact fold_lookup_target level et call_events h _

theorem setup_newMap_events (level : Int) (also_default : Bool)
    (m : PowerLevels) :
    (setup_call_permissions level also_default m).newMap.events
      = (run_call_events level m.events).1 := by
  rw [setup_call_permissions]
  split_ifs <;> rfl

theorem setup_newMap_users (level : Int) (also_default : Bool)
    (m : PowerLevels) :
    (setup_call_permissions level also_default m).newMap.users = m.users := by
  rw [setup_call_permissions]
  split_ifs <;> rfl

theorem setup_newMap_events_default (level : Int) (also_default : Bool)
    (m : PowerLevels) :
    (setup_call_permissions level also_default m).newMap.events_default
      = if also_default = true ∧ m.events_default.getD 0 > level
        then some level else m.events_default := by
  rw [setup_call_permissions]
  cases also_default with
  | false => simp
  | true =>
    by_cases h : m.events_default.getD 0 > level <;> simp [h]

theorem setup_changes (level : Int) (also_default : Bool) (m : PowerLevels) :
    (setup_call_permissions level also_default m).changes
      = (run_call_events level m.events).2
        ++ (if also_default = true ∧ m.events_default.getD 0 > level
            then [PLChange.default_level (m.events_default.getD 0) level]
            else []) := by
  rw [setup_call_permissions]
  cases also_default with
  | false => simp
  | true =>
    by_cases h : m.events_default.getD 0 > level <;> simp [h]

/-- Core of idempotence: patch computation applied to the replacement map
built by a previous patch computation records no changes. -/
theorem setup_idem_changes (level : Int) (also_default : Bool)
    (m : PowerLevels) :
    (setup_call_permissions level also_default
      ((setup_call_permissions level also_default m).newMap)).changes = [] := by
  rw [setup_changes]
  have h1 : (run_call_events level
      (setup_call_permissions level also_default m).newMap.events).2 = [] := by
    apply run_call_events_changes_stable
    intro et hmem
    rw [setup_newMap_events]
    exact run_call_events_lookup_target level et hmem _
  have h2 : ¬ (also_default = true
      ∧ ((setup_call_permissions level also_default m).newMap).events_default.getD 0
          > level) := by
    rintro ⟨ha, hgt⟩
    rw [setup_newMap_events_default] at hgt
    by_cases hc : also_default = true ∧ m.events_default.getD 0 > level
    · rw [if_pos hc] at hgt
      exact absurd hgt (by simp)
    · rw [if_neg hc] at hgt
      exact hc ⟨ha, hgt⟩
  rw [h1, if_neg h2]
  rfl

/-- A reconciliation that records no changes returns before submitting
(lines 219-221) and leaves the room's map untouched. -/
theorem reconcile_once_of_no_changes (level : Int) (also_default : Bool)
    (m : PowerLevels)
    (h : (setup_call_permissions level also_default m).changes = []) :
    reconcile_once level also_default m = m := by
  unfold reconcile_once
  rw [h]
  rfl

/-- A run of `_setup_call_permissions` that records no changes makes no
send call, schedules no verification, and leaves the room state as it
was. -/
theorem setup_run_of_no_changes (level : Int) (also_default : Bool)
    (m : PowerLevels) (p f : Bool)
    (h : (setup_call_permissions level also_default m).changes = []) :
    setup_run level also_default (some m) p f
      = ⟨none, false, some m, none⟩ := by
  simp only [setup_run]
  rw [h]
  rfl

/-! ### Heap lemmas: everything the patch computation writes lives above
the original heap top -/

theorem take_set_of_le {α : Type} :
    ∀ (l : List α) (i : Nat) (x : α) (n : Nat), n ≤ i →
      (l.set i x).take n = l.take n := by
  intro l
  induction l with
  | nil => intro i x n _; simp
  | cons a t ih =>
    intro i x n hni
    cases n with
    | zero => simp
    | succ n' =>
      cases i with
      | zero => exact absurd hni (by omega)
      | succ i' =>
        simp only [List.set, List.take]
        rw [ih i' x n' (by omega)]

theorem take_append_of_le {α : Type} :
    ∀ (n : Nat) (l t : List α), n ≤ l.length → (l ++ t).take n = l.take n := by
  intro n
  induction n with
  | zero => intro l t _; simp
  | succ n' ih =>
    intro l t hlen
    cases l with
    | nil => simp at hlen
    | cons a l' =>
      simp only [List.cons_append, List.take, List.append_eq]
      rw [ih l' t (by simpa using hlen)]

theorem heap_set_objs (h : Heap) (a : Nat) (d : PyDict) :
    (h.set a d).objs = h.objs.set a d := rfl

theorem heap_set_objs_length (h : Heap) (a : Nat) (d : PyDict) :
    (h.set a d).objs.length = h.objs.length := by
  simp [Heap.set]

theorem heap_set_take_of_le (h : Heap) (a : Nat) (d : PyDict) (n : Nat)
    (hna : n ≤ a) : (h.set a d).objs.take n = h.objs.take n := by
  rw [heap_set_objs]
  exact take_set_of_le _ _ _ _ hna

theorem heap_alloc_objs (h : Heap) (d : PyDict) :
    (h.alloc d).1.objs = h.objs ++ [d] := rfl

theorem heap_alloc_addr (h : Heap) (d : PyDict) :
    (h.alloc d).2 = h.objs.length := rfl

/-- `copy.deepcopy` only allocates: the original heap is an unchanged
initial segment of the result. -/
theorem deepcopyVal_heap_ext :
    ∀ (fuel : Nat) (h : Heap) (v : PyVal),
      ∃ t, ((deepcopyVal fuel h v).1).objs = h.objs ++ t := by
  intro fuel
  induction fuel with
  | zero => intro h v; exact ⟨[], by simp [deepcopyVal]⟩
  | succ f ih =>
    intro h v
    cases v with
    | int i => exact ⟨[], by simp [deepcopyVal]⟩
    | str s => exact ⟨[], by simp [deepcopyVal]⟩
    | bool b => exact ⟨[], by simp [deepcopyVal]⟩
    | ref a =>
      have fold_ext : ∀ (entries : PyDict) (st : Heap × PyDict),
          ∃ t, ((entries.foldl
            (fun acc p => ((deepcopyVal f acc.1 p.2).1,
              acc.2 ++ [(p.1, (deepcopyVal f acc.1 p.2).2)])) st).1).objs
            = st.1.objs ++ t := by
        intro entries
        induction entries with
        | nil => intro st; exact ⟨[], by simp⟩
        | cons p rest ihe =>
          intro st
          rw [List.foldl_cons]
          obtain ⟨t2, ht2⟩ := ihe
            ((deepcopyVal f st.1 p.2).1, st.2 ++ [(p.1, (deepcopyVal f st.1 p.2).2)])
          obtain ⟨t1, ht1⟩ := ih st.1 p.2
          refine ⟨t1 ++ t2, ?_⟩
          rw [ht2]
          simp only at ht1 ⊢
          rw [ht1, List.append_assoc]
      obtain ⟨t, ht⟩ := fold_ext (Heap.get h a) (h, [])
      refine ⟨t ++ [((Heap.get h a).foldl
        (fun acc p => ((deepcopyVal f acc.1 p.2).1,
          acc.2 ++ [(p.1, (deepcopyVal f acc.1 p.2).2)])) (h, [])).2], ?_⟩
      simp only [deepcopyVal]
      rw [heap_alloc_objs, ht, List.append_assoc]

/-- The entries fold inside `deepcopyVal` only allocates. -/
theorem deepcopy_entries_heap_ext (f : Nat) :
    ∀ (entries : PyDict) (st : Heap × PyDict),
      ∃ t, ((entries.foldl
        (fun acc p => ((deepcopyVal f acc.1 p.2).1,
          acc.2 ++ [(p.1, (deepcopyVal f acc.1 p.2).2)])) st).1).objs
        = st.1.objs ++ t := by
  intro entries
  induction entries with
  | nil => intro st; exact ⟨[], by simp⟩
  | cons p rest ihe =>
    intro st
    rw [List.foldl_cons]
    obtain ⟨t2, ht2⟩ := ihe
      ((deepcopyVal f st.1 p.2).1, st.2 ++ [(p.1, (deepcopyVal f st.1 p.2).2)])
    obtain ⟨t1, ht1⟩ := deepcopyVal_heap_ext f st.1 p.2
    refine ⟨t1 ++ t2, ?_⟩
    rw [ht2]
    simp only at ht1 ⊢
    rw [ht1, List.append_assoc]

/-- A loop that only writes to one address at or above `n` preserves the
first `n` objects and the heap size. -/
theorem foldl_set_take {α : Type} (u n : Nat) (hn : n ≤ u)
    (g : Heap → α → PyDict) :
    ∀ (L : List α) (h : Heap),
      ((L.foldl (fun h x => h.set u (g h x)) h).objs.take n = h.objs.take n)
      ∧ (L.foldl (fun h x => h.set u (g h x)) h).objs.length
          = h.objs.length := by
  intro L
  induction L with
  | nil => intro h; exact ⟨rfl, rfl⟩
  | cons a t ihl =>
    intro h
    rw [List.foldl_cons]
    obtain ⟨h1, h2⟩ := ihl (h.set u (g h a))
    refine ⟨?_, ?_⟩
    · rw [h1]
      exact take_set_of_le _ _ _ _ hn
    · rw [h2]
      exact heap_set_objs_length h u (g h a)

theorem heap_copy_entries_take (u n : Nat) (hn : n ≤ u)
    (entries : PyDict) (h : Heap) :
    ((heap_copy_entries u entries h).objs.take n = h.objs.take n)
    ∧ (heap_copy_entries u entries h).objs.length = h.objs.length := by
  unfold heap_copy_entries
  exact foldl_set_take u n hn (fun h p => dictSet (h.get u) p.1 p.2) entries h

theorem heap_update_call_events_take (u n : Nat) (hn : n ≤ u)
    (level : Int) (h : Heap) :
    ((heap_update_call_events u level h).objs.take n = h.objs.take n)
    ∧ (heap_update_call_events u level h).objs.length = h.objs.length := by
  unfold heap_update_call_events
  exact foldl_set_take u n hn
    (fun h et => dictSet (h.get u) et (PyVal.int level)) call_events h

theorem heap_write_default_take (h : Heap) (a1 : Nat) (level : Int)
    (ad : Bool) (n : Nat) (ha1 : n ≤ a1) :
    (heap_write_default h a1 level ad).objs.take n = h.objs.take n := by
  unfold heap_write_default
  split
  · split
    · split
      · exact heap_set_take_of_le h a1 _ n ha1
      · rfl
    · split
      · exact heap_set_take_of_le h a1 _ n ha1
      · rfl
    · rfl
  · rfl

theorem heap_write_events_ref_take (h : Heap) (a1 u : Nat) (n : Nat)
    (ha1 : n ≤ a1) :
    (heap_write_events_ref h a1 u).objs.take n = h.objs.take n :=
  heap_set_take_of_le h a1 _ n ha1

theorem heap_setup_rest_take (h : Heap) (a1 e : Nat) (level : Int)
    (ad : Bool) (n : Nat) (hlen : n ≤ h.objs.length) (ha1 : n ≤ a1) :
    (heap_setup_rest h a1 e level ad).objs.take n = h.objs.take n := by
  unfold heap_setup_rest
  have hu : n ≤ (h.alloc []).2 := by rw [heap_alloc_addr]; exact hlen
  rw [heap_write_default_take _ _ _ _ _ ha1,
    heap_write_events_ref_take _ _ _ _ ha1,
    (heap_update_call_events_take _ _ hu _ _).1,
    (heap_copy_entries_take _ _ hu _ _).1,
    heap_alloc_objs,
    take_append_of_le n h.objs [[]] hlen]

theorem heap_setup_core_take (h1 : Heap) (a1 : Nat) (level : Int)
    (ad : Bool) (n : Nat) (hlen : n ≤ h1.objs.length) (ha1 : n ≤ a1) :
    (heap_setup_core h1 a1 level ad).objs.take n = h1.objs.take n := by
  have key : ∀ d : PyDict,
      (heap_setup_rest
        ((h1.alloc d).1.set a1
          (dictSet ((h1.alloc d).1.get a1) "events" (PyVal.ref (h1.alloc d).2)))
        a1 (h1.alloc d).2 level ad).objs.take n = h1.objs.take n := by
    intro d
    have hlen3 : n ≤ ((h1.alloc d).1.set a1
        (dictSet ((h1.alloc d).1.get a1) "events"
          (PyVal.ref (h1.alloc d).2))).objs.length := by
      rw [heap_set_objs_length, heap_alloc_objs, List.length_append]
      omega
    rw [heap_setup_rest_take _ _ _ _ _ _ hlen3 ha1,
      heap_set_take_of_le _ _ _ _ ha1, heap_alloc_objs,
      take_append_of_le n h1.objs [d] hlen]
  unfold heap_setup_core
  split
  · exact key []
  · exact key _
  · rfl

theorem heap_setup_core_ext_take (h : Heap) (level : Int) (ad : Bool)
    (h1 : Heap) (a1 : Nat) (t : List PyDict)
    (hobjs : h1.objs = h.objs ++ t) (ha1 : h.objs.length ≤ a1) :
    (heap_setup_core h1 a1 level ad).objs.take h.objs.length = h.objs := by
  rw [heap_setup_core_take h1 a1 level ad _
      (by rw [hobjs, List.length_append]; omega) ha1,
    hobjs, take_append_of_le _ _ _ (le_refl _), List.take_length]

/-! ## Claim theorems -/

/-- C1, counterexample: in the spec's NOOP scenario (`events_default = 0`,
empty `events`, target level 0) the code does record changes — every call
event type goes from the Python placeholder `"not set"` to an explicit 0,
which counts as a difference — and a state write is submitted, so the run
is not a NOOP. -/
theorem C1_counterexample :
    (setup_call_permissions 0 true pl_c1).changes ≠ []
    ∧ (setup_run 0 true (some pl_c1) true true).submitted ≠ none := by
  constructor
  · simp only [setup_call_permissions, pl_c1]
    unfold run_call_events
    decide
  · simp only [setup_run, setup_call_permissions, send_state_event, pl_c1]
    unfold run_call_events
    decide

/-- C1, amended: for a room whose permission map has `events_default = 0`
and an empty `events` mapping, with target level 0, patch computation
records one change per built-in call event type (each goes from unset to
an explicit 0, because the comparison treats an absent key as different
from the target rather than as implicitly at the default), and a state
write is submitted. -/
theorem C1_every_call_event_changes (m : PowerLevels)
    (hev : m.events = []) (hdef : m.events_default = some 0) :
    (setup_call_permissions 0 true m).changes
      = call_events.map (fun et => PLChange.event_level et none 0)
    ∧ (setup_run 0 true (some m) true true).submitted ≠ none := by
  have hch : (setup_call_permissions 0 true m).changes
      = call_events.map (fun et => PLChange.event_level et none 0) := by
    rw [setup_changes, hev, hdef]
    rw [if_neg (by simp), List.append_nil]
    unfold run_call_events
    decide
  refine ⟨hch, ?_⟩
  simp only [setup_run, hch]
  simp [send_state_event, call_events]

/-- C1, witness: the amended claim at the concrete scenario map. -/
theorem C1_witness :
    (setup_call_permissions 0 true pl_c1).changes
      = call_events.map (fun et => PLChange.event_level et none 0)
    ∧ (setup_run 0 true (some pl_c1) true true).submitted ≠ none :=
  C1_every_call_event_changes pl_c1 rfl rfl

/-- C2, confirmed: reconciliation is idempotent.  Applying patch
computation to the map resulting from a first application records no
changes, the second run performs no send call, and the final map equals
the result of a single application. -/
theorem C2_reconcile_idempotent (level : Int) (also_default : Bool)
    (m : PowerLevels) (primary_ok fallback_ok : Bool) :
    (setup_call_permissions level also_default
        (reconcile_once level also_default m)).changes = []
    ∧ (setup_run level also_default
        (some (reconcile_once level also_default m))
        primary_ok fallback_ok).send = none
    ∧ reconcile_once level also_default (reconcile_once level also_default m)
        = reconcile_once level also_default m := by
  have key : (setup_call_permissions level also_default
      (reconcile_once level also_default m)).changes = [] := by
    unfold reconcile_once
    by_cases hc :
        (setup_call_permissions level also_default m).changes.isEmpty = true
    · rw [if_pos hc]
      simpa using hc
    · rw [if_neg hc]
      exact setup_idem_changes level also_default m
  refine ⟨key, ?_, reconcile_once_of_no_changes _ _ _ key⟩
  rw [setup_run_of_no_changes _ _ _ primary_ok fallback_ok key]

/-- C3, counterexample: with the power-level state absent on every poll,
the scheduled inter-attempt delays are 1, 2, 4, 8, 16 seconds — five
delays between the six attempts — not 1, 2, 4, 8, 16, 32. -/
theorem C3_counterexample :
    (setup_call_permissions_with_retry (fun _ => none) 0).delays
      ≠ ([1, 2, 4, 8, 16, 32] : List Nat) := by
  decide

/-- C3, amended: if the permission-map state item is absent on every
poll, the readiness-wait loop performs exactly 6 attempts with
inter-attempt delays of 1, 2, 4, 8, 16 seconds (delay = 2^attempt for
attempts 0 through 4; the sixth and final attempt schedules no further
delay), finds no state, and the whole pipeline submits no write for the
room, whatever the rest of the configuration. -/
theorem C3_six_attempts_five_delays :
    setup_call_permissions_with_retry (fun _ => none) 0
      = ⟨6, [1, 2, 4, 8, 16], none⟩
    ∧ (∀ (enable : Bool) (excluded : List String) (level : Int)
        (also_default : Bool) (content : CreateContent) (ef sf p f : Bool),
        pipeline_write enable excluded level also_default content ef sf
          (fun _ => none) p f = none) := by
  refine ⟨by decide, ?_⟩
  intro enable excluded level also_default content ef sf p f
  unfold pipeline_write
  by_cases hs : (check_event_allowed enable excluded "m.room.create" content
      ef sf).scheduled = true
  · rw [if_pos hs,
      (by decide :
        (setup_call_permissions_with_retry (fun _ => none) 0).found = none)]
    rfl
  · rw [if_neg hs]

/-- C4, confirmed: with `also_set_events_default` enabled, the patched
map's `events_default` never exceeds the incoming one; whenever the
incoming default strictly exceeds the target level it is lowered exactly
to the target; in particular a default of 50 with target 0 becomes 0, and
a default of 0 with target 50 stays 0. -/
theorem C4_default_only_lowered (level : Int) (m : PowerLevels) :
    (setup_call_permissions level true m).newMap.events_default.getD 0
      ≤ m.events_default.getD 0
    ∧ (m.events_default.getD 0 > level →
        (setup_call_permissions level true m).newMap.events_default
          = some level)
    ∧ (m.events_default = some 50 → level = 0 →
        (setup_call_permissions level true m).newMap.events_default = some 0)
    ∧ (m.events_default = some 0 → level = 50 →
        (setup_call_permissions level true m).newMap.events_default
          = some 0) := by
  have hd := setup_newMap_events_default level true m
  by_cases hc : m.events_default.getD 0 > level
  · rw [if_pos ⟨rfl, hc⟩] at hd
    refine ⟨?_, fun _ => hd, ?_, ?_⟩
    · rw [hd]
      simp only [Option.getD_some]
      omega
    · intro _ h0
      subst h0
      exact hd
    · intro h0 h50
      rw [h0] at hc
      simp only [Option.getD_some] at hc
      omega
  · rw [if_neg (fun hh => hc hh.2)] at hd
    refine ⟨?_, fun h => absurd h hc, ?_, ?_⟩
    · rw [hd]
    · intro h50 h0
      rw [h50] at hc
      subst h0
      simp only [Option.getD_some] at hc
      omega
    · intro h0 _
      rw [hd, h0]

/-- C4, witness: the two spec instances at a concrete map. -/
theorem C4_witness :
    (setup_call_permissions 0 true pl_c4).newMap.events_default = some 0
    ∧ (setup_call_permissions 50 true pl_c1).newMap.events_default
        = some 0 := by
  constructor
  · exact (C4_default_only_lowered 0 pl_c4).2.2.1 rfl rfl
  · exact (C4_default_only_lowered 50 pl_c1).2.2.2 rfl rfl

/-- C5, confirmed: a creation event whose content declares a type in the
configured exclusion set never gets work scheduled — regardless of the
rest of the content, of `is_direct`, and of any internal fault — and the
whole pipeline never writes state for that room; every non-excluded room
(direct-message rooms included) is accepted when the module is enabled
and no fault occurs. -/
theorem C5_excluded_rooms_dropped (enable : Bool) (excluded : List String)
    (level : Int) (also_default : Bool) (content : CreateContent)
    (ef sf : Bool) (state_at : Nat → Option PowerLevels) (p f : Bool) :
    (∀ t, content.room_type = some t → t ∈ excluded →
      (check_event_allowed enable excluded "m.room.create" content
          ef sf).scheduled = false
      ∧ pipeline_write enable excluded level also_default content ef sf
          state_at p f = none)
    ∧ (should_exclude_room excluded content = false → enable = true →
        ef = false → sf = false →
        (check_event_allowed enable excluded "m.room.create" content
            ef sf).scheduled = true) := by
  constructor
  · intro t hrt hmem
    have hexc : should_exclude_room excluded content = true := by
      simp [should_exclude_room, hrt, hmem]
    have hsched : (check_event_allowed enable excluded "m.room.create"
        content ef sf).scheduled = false := by
      unfold check_event_allowed
      rw [if_pos rfl]
      cases enable with
      | false => rfl
      | true =>
        cases ef with
        | true => rfl
        | false =>
          rw [hexc]
          rfl
    refine ⟨hsched, ?_⟩
    unfold pipeline_write
    rw [hsched]
    rfl
  · intro hne he hef hsf
    subst he
    subst hef
    subst hsf
    unfold check_event_allowed
    rw [if_pos rfl, hne]
    rfl

/-- C5, witness: a space-typed room is dropped with no write, and a
direct-message room with a custom type is accepted. -/
theorem C5_witness :
    (check_event_allowed true ["m.space"] "m.room.create"
        ⟨some "m.space", false⟩ false false).scheduled = false
    ∧ pipeline_write true ["m.space"] 0 true ⟨some "m.space", false⟩
        false false (fun _ => some pl_c1) true true = none
    ∧ (check_event_allowed true ["m.space"] "m.room.create"
        ⟨none, true⟩ false false).scheduled = true := by
  refine ⟨?_, ?_, ?_⟩
  · exact ((C5_excluded_rooms_dropped true ["m.space"] 0 true
      ⟨some "m.space", false⟩ false false (fun _ => some pl_c1) true true).1
      "m.space" rfl (by decide)).1
  · exact ((C5_excluded_rooms_dropped true ["m.space"] 0 true
      ⟨some "m.space", false⟩ false false (fun _ => some pl_c1) true true).1
      "m.space" rfl (by decide)).2
  · exact (C5_excluded_rooms_dropped true ["m.space"] 0 true
      ⟨none, true⟩ false false (fun _ => some pl_c1) true true).2
      (by decide) rfl rfl rfl

/-- C6, counterexample: with the single principal `""` at level 100, a
qualifying principal (level ≥ 50) exists, yet the combined selection
returns the creating principal — a string that is not a key of the map at
all — because Python's `if not admin_user` treats the empty string as
falsy. -/
theorem C6_counterexample :
    (∃ p ∈ ([("", 100)] : IntDict), 50 ≤ p.2)
    ∧ choose_sender [("", 100)] "@creator:example.org"
        = "@creator:example.org"
    ∧ "@creator:example.org" ∉ ([("", 100)] : IntDict).map Prod.fst := by
  refine ⟨⟨("", 100), by decide, by decide⟩, by decide, by decide⟩

/-- C6, amended: `find_admin_user` returns exactly the first principal in
iteration order whose level is at least 50 (never one below 50), and the
combined selection is total: it returns that principal unless its
identifier is the empty string (which Python truthiness treats as
absent); when no principal qualifies — or the qualifying identifier is
falsy — it falls back to the room's creating principal. -/
theorem C6_selection_total (users : IntDict) (sender : String) :
    find_admin_user users
      = (users.find? (fun p => decide (50 ≤ p.2))).map Prod.fst
    ∧ (∀ u, find_admin_user users = some u → ∃ l, (u, l) ∈ users ∧ 50 ≤ l)
    ∧ (find_admin_user users = none → choose_sender users sender = sender)
    ∧ (∀ u, find_admin_user users = some u → u ≠ "" →
        choose_sender users sender = u) := by
  refine ⟨?_, ?_, ?_, ?_⟩
  · induction users with
    | nil => rfl
    | cons a rest ih =>
      obtain ⟨u0, p0⟩ := a
      by_cases hp : p0 ≥ 50
      · have h1 : find_admin_user ((u0, p0) :: rest) = some u0 := by
          simp [find_admin_user, hp]
        have h2 : List.find? (fun p => decide (50 ≤ p.2)) ((u0, p0) :: rest)
            = some (u0, p0) := List.find?_cons_of_pos _ (by simpa using hp)
        rw [h1, h2]
        rfl
      · have h1 : find_admin_user ((u0, p0) :: rest)
            = find_admin_user rest := by
          simp [find_admin_user, hp]
        have h2 : List.find? (fun p => decide (50 ≤ p.2)) ((u0, p0) :: rest)
            = List.find? (fun p => decide (50 ≤ p.2)) rest :=
          List.find?_cons_of_neg _ (by simpa using hp)
        rw [h1, h2, ih]
  · intro u
    induction users with
    | nil =>
      intro h
      simp [find_admin_user] at h
    | cons a rest ih =>
      obtain ⟨u0, p0⟩ := a
      intro h
      simp only [find_admin_user] at h
      by_cases hp : p0 ≥ 50
      · rw [if_pos hp] at h
        obtain rfl := Option.some.inj h
        exact ⟨p0, List.mem_cons_self _ _, hp⟩
      · rw [if_neg hp] at h
        obtain ⟨l, hl1, hl2⟩ := ih h
        exact ⟨l, List.mem_cons_of_mem _ hl1, hl2⟩
  · intro h
    unfold choose_sender
    rw [h]
  · intro u h hne
    unfold choose_sender
    rw [h]
    show (if u = "" then sender else u) = u
    rw [if_neg hne]

/-- C6, witness: the spec's example map, with first qualifying principal
at level 100. -/
theorem C6_witness :
    choose_sender [("@alice:example.org", 100), ("@bob:example.org", 10),
      ("@carol:example.org", 50)] "@creator:example.org"
      = "@alice:example.org" :=
  (C6_selection_total [("@alice:example.org", 100), ("@bob:example.org", 10),
    ("@carol:example.org", 50)] "@creator:example.org").2.2.2
    "@alice:example.org" (by decide) (by decide)

/-- C7, confirmed: the event-pipeline callback returns `(True, None)` for
every event type, every content, every configuration and whether or not
an internal fault occurs during exclusion checking or scheduling — no
event is ever blocked or modified and no exception propagates. -/
theorem C7_callback_transparent (enable : Bool) (excluded : List String)
    (event_type : String) (content : CreateContent) (ef sf : Bool) :
    (check_event_allowed enable excluded event_type content ef sf).allowed
        = true
    ∧ (check_event_allowed enable excluded event_type content
        ef sf).replacement = none := by
  unfold check_event_allowed
  split_ifs <;> exact ⟨rfl, rfl⟩

/-- C8, confirmed: when the primary privileged submission fails, the
fallback is attempted exactly once (each run attempts the primary exactly
once, so submission is never retried); if the fallback also fails the run
reports failure, schedules no verification, submits nothing, and the
room's power-level state is left unchanged. -/
theorem C8_single_fallback_then_stop (level : Int) (also_default : Bool)
    (m : PowerLevels) (fallback_ok : Bool)
    (hch : (setup_call_permissions level also_default m).changes ≠ []) :
    (setup_run level also_default (some m) false fallback_ok).send
        = some (send_state_event false fallback_ok)
    ∧ (send_state_event false fallback_ok).primary_attempts = 1
    ∧ (send_state_event false fallback_ok).fallback_attempts = 1
    ∧ (fallback_ok = false →
        setup_run level also_default (some m) false false
          = ⟨some ⟨false, 1, 1⟩, false, some m, none⟩) := by
  have hemp : (setup_call_permissions level also_default m).changes.isEmpty
      = false := List.isEmpty_eq_false.mpr hch
  cases fallback_ok with
  | false =>
    refine ⟨?_, rfl, rfl, fun _ => ?_⟩
    · simp only [setup_run, hemp]
      rfl
    · simp only [setup_run, hemp]
      rfl
  | true =>
    refine ⟨?_, rfl, rfl, fun hcontra => nomatch hcontra⟩
    simp only [setup_run, hemp]
    rfl

/-- C8, witness: both submissions failing on the scenario map leaves the
room state untouched, with one primary and one fallback attempt. -/
theorem C8_witness :
    setup_run 0 true (some pl_c1) false false
      = ⟨some ⟨false, 1, 1⟩, false, some pl_c1, none⟩ := by
  have hch : (setup_call_permissions 0 true pl_c1).changes ≠ [] := by
    simp only [setup_call_permissions, pl_c1]
    unfold run_call_events
    decide
  exact (C8_single_fallback_then_stop 0 true pl_c1 false hch).2.2.2 rfl

/-- C9, confirmed: the patch computation operates on a deep copy — for
every heap, content address, configuration and (positive) copy fuel, the
objects that existed before the computation (the host's cached state,
its nested `events` and `users` dicts included) are bit-for-bit unchanged
afterwards; only freshly allocated objects are ever written. -/
theorem C9_no_input_mutation (h : Heap) (a0 : Nat) (level : Int)
    (also_default : Bool) (fuel : Nat) (hf : 1 ≤ fuel) :
    (heap_setup h a0 level also_default fuel).objs.take h.objs.length
      = h.objs := by
  obtain ⟨fp, rfl⟩ : ∃ fp, fuel = fp + 1 := ⟨fuel - 1, by omega⟩
  unfold heap_setup
  simp only [deepcopyVal]
  obtain ⟨t, ht⟩ := deepcopy_entries_heap_ext fp (Heap.get h a0) (h, [])
  simp only at ht
  apply heap_setup_core_ext_take h level also_default
  · rw [heap_alloc_objs, ht, List.append_assoc]
  · rw [heap_alloc_addr, ht, List.length_append]
    omega

/-- C9, witness: the concrete three-object heap is untouched. -/
theorem C9_witness :
    (heap_setup heap_c9 0 0 true 5).objs.take heap_c9.objs.length
      = heap_c9.objs :=
  C9_no_input_mutation heap_c9 0 0 true 5 (by decide)

/-- C10, confirmed: whenever some built-in call event type carries an
explicit required level strictly below the target, patch computation
records a change and the replacement map carries exactly the target level
for that type — per-event-type levels are unconditionally overwritten and
can be raised, unlike `events_default`. -/
theorem C10_explicit_levels_overwritten (level : Int) (also_default : Bool)
    (m : PowerLevels) (et : String) (l : Int)
    (hmem : et ∈ call_events) (hlook : lookupKey m.events et = some l)
    (hlt : l < level) :
    (setup_call_permissions level also_default m).changes ≠ []
    ∧ lookupKey
        (setup_call_permissions level also_default m).newMap.events et
      = some level := by
  refine ⟨?_, ?_⟩
  · have hfold : (run_call_events level m.events).2 ≠ [] := by
      unfold run_call_events
      obtain ⟨s, t2, hsplit⟩ := List.append_of_mem hmem
      have hnods : call_events.Nodup := by decide
      have hets : et ∉ s := by
        rw [hsplit] at hnods
        rcases List.nodup_append.mp hnods with ⟨-, -, hdisj⟩
        exact fun hin => hdisj hin (List.mem_cons_self et t2)
      rw [hsplit, List.foldl_append, List.foldl_cons]
      rcases hAeq : s.foldl (update_call_event level) (m.events, [])
        with ⟨a1, a2⟩
      have hA1 : lookupKey a1 et = some l := by
        have h2 := fold_lookup_not_mem level et s hets (m.events, [])
        rw [hAeq] at h2
        simp only at h2
        rw [h2]
        exact hlook
      have hmiss : ¬ lookupKey a1 et = some level := by
        rw [hA1]
        intro hq
        exact absurd (Option.some.inj hq) (by omega)
      rw [update_call_event_of_miss level a1 a2 et hmiss]
      obtain ⟨tt, htt⟩ := fold_changes_extend level t2 (dictInsert a1 et level)
        (a2 ++ [PLChange.event_level et (lookupKey a1 et) level])
      rw [htt]
      simp
    rw [setup_changes]
    intro hcontra
    exact hfold (List.append_eq_nil.mp hcontra).1
  · rw [setup_newMap_events]
    exact run_call_events_lookup_target level et hmem _

/-- C10, witness: `m.call.invite` at explicit level 0 with target 50 is
raised to exactly 50, with a change recorded. -/
theorem C10_witness :
    (setup_call_permissions 50 true pl_c10).changes ≠ []
    ∧ lookupKey (setup_call_permissions 50 true pl_c10).newMap.events
        "m.call.invite" = some 50 :=
  C10_explicit_levels_overwritten 50 true pl_c10 "m.call.invite" 0
    (by decide) (by decide) (by decide)
